import Mathlib

/-!
# Verification of the news summarize/trending pipeline

A shallow embedding of the TypeScript pipeline (article normalization,
deduplication, diversity-aware selection, relevance scoring, model-response
parsing and fallback clustering) together with proofs and refutations of the
specified properties.

Conventions of the embedding:
* JavaScript numbers are modelled as `ℚ`; a JavaScript `NaN` is modelled as
  `none` in `Option ℚ` (NaN propagates through arithmetic as `none` does
  through `Option.map`).  IEEE-754 rounding error is not modelled.
* JavaScript exceptions are modelled with `Option`; a `try`/`catch` becomes a
  `match` on the `Option`.
* `String.length` counts code points while JavaScript counts UTF-16 units;
  the two agree on all concrete inputs used below.
-/

namespace JsModel

/-- JavaScript `String.prototype.trim`: drop leading and trailing whitespace. -/
def jsTrim (s : String) : String :=
  String.mk (((s.data.dropWhile Char.isWhitespace).reverse.dropWhile Char.isWhitespace).reverse)

/-- JavaScript `String.prototype.toLowerCase` (ASCII case mapping). -/
def jsLower (s : String) : String := String.mk (s.data.map Char.toLower)

/-- JavaScript `a || b` on strings: `b` when `a` is the empty string. -/
def jsOrStr (a b : String) : String := if a = "" then b else a

/-- `needle` stripped from the front of `text` when it is an initial segment. -/
def stripChars : List Char → List Char → Option (List Char)
  | [], text => some text
  | _ :: _, [] => none
  | k :: ks, c :: cs => if c == k then stripChars ks cs else none

/-- JavaScript `String.prototype.includes`: substring occurrence test. -/
def containsSub (needle : List Char) : List Char → Bool
  | [] => (stripChars needle []).isSome
  | c :: rest => (stripChars needle (c :: rest)).isSome || containsSub needle rest

/-- Insertion step of a stable insertion sort parameterised by a Boolean
"keeps its place before" test. -/
def insertLe {α : Type} (le : α → α → Bool) (a : α) : List α → List α
  | [] => [a]
  | b :: bs => if le a b then a :: b :: bs else b :: insertLe le a bs

/-- Stable sort used to model `Array.prototype.sort` (V8's sort is stable;
none of the verified properties depend on the order among ties). -/
def sortLe {α : Type} (le : α → α → Bool) : List α → List α
  | [] => []
  | a :: as => insertLe le a (sortLe le as)

/-! ## JSON values and `JSON.parse`

A recursive-descent parser for the JSON grammar (ECMA-404), used to model
`JSON.parse`.  The parser is fuel-bounded; fuel `2 * length + 4` suffices for
any input (`JSON.parse` itself throws on pathologically deep input, which the
calling code catches, so fuel exhaustion faithfully degrades the same way). -/

inductive JsonValue where
  | null
  | bool (b : Bool)
  | num (q : ℚ)
  | str (s : String)
  | arr (elems : List JsonValue)
  | obj (fields : List (String × JsonValue))

/-- JSON insignificant whitespace. -/
def jsonWs (c : Char) : Bool := c = ' ' || c = '\t' || c = '\n' || c = '\r'

def skipWs : List Char → List Char
  | [] => []
  | c :: cs => if jsonWs c then skipWs cs else c :: cs

def hexVal (c : Char) : Option Nat :=
  if '0' ≤ c ∧ c ≤ '9' then some (c.toNat - 48)
  else if 'a' ≤ c ∧ c ≤ 'f' then some (c.toNat - 87)
  else if 'A' ≤ c ∧ c ≤ 'F' then some (c.toNat - 55)
  else none

/-- Body of a JSON string literal, after the opening quote. -/
def parseStringBody : Nat → List Char → List Char → Option (String × List Char)
  | 0, _, _ => none
  | _, [], _ => none
  | fuel + 1, c :: rest, acc =>
    if c = '"' then some (String.mk acc.reverse, rest)
    else if c = '\\' then
      match rest with
      | [] => none
      | e :: rest2 =>
        if e = '"' then parseStringBody fuel rest2 ('"' :: acc)
        else if e = '\\' then parseStringBody fuel rest2 ('\\' :: acc)
        else if e = '/' then parseStringBody fuel rest2 ('/' :: acc)
        else if e = 'b' then parseStringBody fuel rest2 (Char.ofNat 8 :: acc)
        else if e = 'f' then parseStringBody fuel rest2 (Char.ofNat 12 :: acc)
        else if e = 'n' then parseStringBody fuel rest2 ('\n' :: acc)
        else if e = 'r' then parseStringBody fuel rest2 (Char.ofNat 13 :: acc)
        else if e = 't' then parseStringBody fuel rest2 ('\t' :: acc)
        else if e = 'u' then
          match rest2 with
          | h1 :: h2 :: h3 :: h4 :: rest3 =>
            match hexVal h1, hexVal h2, hexVal h3, hexVal h4 with
            | some a, some b, some c2, some d =>
              parseStringBody fuel rest3 (Char.ofNat (((a * 16 + b) * 16 + c2) * 16 + d) :: acc)
            | _, _, _, _ => none
          | _ => none
        else none
    else if c.toNat < 32 then none
    else parseStringBody fuel rest (c :: acc)

def spanDigits : List Char → List Char × List Char
  | [] => ([], [])
  | c :: cs =>
    if c.isDigit then
      let p := spanDigits cs
      (c :: p.1, p.2)
    else ([], c :: cs)

def digitsToNat (ds : List Char) : Nat := ds.foldl (fun n c => n * 10 + (c.toNat - 48)) 0

/-- Optional fraction part `.digits`. -/
def parseFracPart : List Char → Option (ℚ × List Char)
  | '.' :: rest =>
    match spanDigits rest with
    | ([], _) => none
    | (ds, r) => some ((digitsToNat ds : ℚ) / (10 : ℚ) ^ ds.length, r)
  | cs => some (0, cs)

/-- Optional exponent part `[eE][+-]?digits`. -/
def parseExpPart : List Char → Option (Int × List Char)
  | [] => some (0, [])
  | c :: rest =>
    if c = 'e' ∨ c = 'E' then
      let p : Bool × List Char :=
        match rest with
        | '+' :: r => (false, r)
        | '-' :: r => (true, r)
        | _ => (false, rest)
      match spanDigits p.2 with
      | ([], _) => none
      | (ds, r) => some (if p.1 then -(digitsToNat ds : Int) else (digitsToNat ds : Int), r)
    else some (0, c :: rest)

/-- JSON number literal (JSON forbids leading zeros such as `01`). -/
def parseNumber (cs : List Char) : Option (ℚ × List Char) :=
  let p : Bool × List Char :=
    match cs with
    | '-' :: rest => (true, rest)
    | _ => (false, cs)
  match spanDigits p.2 with
  | ([], _) => none
  | (ints, cs2) =>
    if ints.length > 1 ∧ ints.headD 'x' = '0' then none
    else
      match parseFracPart cs2 with
      | none => none
      | some (fr, cs3) =>
        match parseExpPart cs3 with
        | none => none
        | some (ex, cs4) =>
          let scale : ℚ :=
            if ex < 0 then 1 / (10 : ℚ) ^ ex.natAbs else (10 : ℚ) ^ ex.natAbs
          let mag : ℚ := ((digitsToNat ints : ℚ) + fr) * scale
          some (if p.1 then -mag else mag, cs4)

mutual

def parseValue : Nat → List Char → Option (JsonValue × List Char)
  | 0, _ => none
  | fuel + 1, cs =>
    match skipWs cs with
    | '{' :: rest =>
      (match skipWs rest with
       | '}' :: r2 => some (.obj [], r2)
       | r2 => parseMembers fuel r2 [])
    | '[' :: rest =>
      (match skipWs rest with
       | ']' :: r2 => some (.arr [], r2)
       | r2 => parseElems fuel r2 [])
    | '"' :: rest =>
      (parseStringBody (rest.length + 1) rest []).map (fun q => (.str q.1, q.2))
    | 't' :: 'r' :: 'u' :: 'e' :: rest => some (.bool true, rest)
    | 'f' :: 'a' :: 'l' :: 's' :: 'e' :: rest => some (.bool false, rest)
    | 'n' :: 'u' :: 'l' :: 'l' :: rest => some (.null, rest)
    | cs2 => (parseNumber cs2).map (fun q => (.num q.1, q.2))

/-- Elements of a non-empty array, between the brackets. -/
def parseElems : Nat → List Char → List JsonValue → Option (JsonValue × List Char)
  | 0, _, _ => none
  | fuel + 1, cs, acc =>
    match parseValue fuel cs with
    | none => none
    | some (v, rest) =>
      match skipWs rest with
      | ',' :: rest2 => parseElems fuel rest2 (v :: acc)
      | ']' :: rest2 => some (.arr (v :: acc).reverse, rest2)
      | _ => none

/-- Members of a non-empty object, between the braces.  Duplicate keys are
kept in order; lookups take the last binding, as `JSON.parse` does. -/
def parseMembers : Nat → List Char → List (String × JsonValue) → Option (JsonValue × List Char)
  | 0, _, _ => none
  | fuel + 1, cs, acc =>
    match skipWs cs with
    | '"' :: rest =>
      match parseStringBody (rest.length + 1) rest [] with
      | none => none
      | some (k, rest2) =>
        match skipWs rest2 with
        | ':' :: rest3 =>
          match parseValue fuel rest3 with
          | none => none
          | some (v, rest4) =>
            match skipWs rest4 with
            | ',' :: rest5 => parseMembers fuel rest5 ((k, v) :: acc)
            | '}' :: rest5 => some (.obj ((k, v) :: acc).reverse, rest5)
            | _ => none
        | _ => none
    | _ => none

end

/-- Model of `JSON.parse`: `none` models a thrown `SyntaxError`. -/
def jsonParse (s : String) : Option JsonValue :=
  match parseValue (2 * s.length + 4) s.data with
  | some (v, rest) => if skipWs rest = [] then some v else none
  | none => none

/-- JavaScript property lookup `obj.key` on a parsed value: `none` models
`undefined` (and the `TypeError` thrown on `null`, which the callers catch).
The last binding wins, matching `JSON.parse` on duplicate keys. -/
def getField (v : JsonValue) (key : String) : Option JsonValue :=
  match v with
  | .obj fields => ((fields.filter (fun q => q.1 == key)).getLast?).map (·.2)
  | _ => none

end JsModel

/-! ## The trending route

Embedding of the retail-trending route: `normalize`, `scoreArticles`,
`parseClusterJson`, the frequent-word fallback clustering and the `POST`
orchestrator. -/

namespace Trending

open JsModel

structure RawNewsArticle where
  /-- Models the `raw.source?.name` chain; `none` for an absent or null name. -/
  sourceName : Option String
  title : Option String
  description : Option String
  url : Option String
  publishedAt : Option String
deriving DecidableEq

structure Article where
  index : Nat
  title : String
  description : String
  url : String
  source : String
  publishedAt : String
deriving DecidableEq

/-- The fixed trend-keyword list (`TREND_KEYWORDS`). -/
def TREND_KEYWORDS : List String :=
  ["ai", "生成", "omnichannel", "オムニ", "supply", "chain", "inflation", "物価",
   "price", "価格", "walmart", "amazon", "shopify", "costco", "target", "tesla",
   "logistics", "物流", "inventory", "在庫", "demand", "需要", "holiday", "セール",
   "sale", "決算", "earnings", "expansion", "出店", "閉店", "撤退", "labor",
   "雇用", "strike", "ストライキ", "sustainability", "サステナ", "eco", "脱炭素",
   "digital", "デジタル", "loyalty", "ロイヤルティ", "membership", "サブスク",
   "subscription"]

/-- The dedup key used by `normalize`: `(title + "::" + url).toLowerCase()`. -/
def normKey (title url : String) : String := jsLower (title ++ "::" ++ url)

/-- Loop body of `normalize`: skip articles with an empty (trimmed) title or
url, dedupe on `normKey`, assign `index := out.length + 1`. -/
def normalizeFrom : List RawNewsArticle → List String → Nat → List Article
  | [], _, _ => []
  | r :: rest, seen, count =>
    let title := jsTrim (r.title.getD "")
    let url := jsTrim (r.url.getD "")
    if title = "" ∨ url = "" then normalizeFrom rest seen count
    else
      let key := normKey title url
      if key ∈ seen then normalizeFrom rest seen count
      else
        { index := count + 1, title := title, description := jsTrim (r.description.getD ""),
          url := url, source := jsTrim (r.sourceName.getD ""),
          publishedAt := jsTrim (r.publishedAt.getD "") }
          :: normalizeFrom rest (key :: seen) (count + 1)

def normalize (raw : List RawNewsArticle) : List Article := normalizeFrom raw [] 0

/-! ### Whole-word keyword matching

Models the regular expression `\bkw\b` with the `i` flag, as applied to the
already-lower-cased `title + " " + description`.  A `\b` matches where the
word-character status (`[A-Za-z0-9_]`) changes. -/

def isWordChar (c : Char) : Bool := c.isAlpha || c.isDigit || c == '_'

def optIsWord : Option Char → Bool
  | some c => isWordChar c
  | none => false

def firstWordness : List Char → Bool
  | [] => false
  | c :: _ => isWordChar c

def lastWordness (l : List Char) : Bool := optIsWord l.getLast?

/-- `\bkw\b` succeeds at the current position; `prev` is the preceding
character, if any. -/
def wholeWordAt (kw : List Char) (prev : Option Char) (text : List Char) : Bool :=
  match stripChars kw text with
  | none => false
  | some rest =>
    (optIsWord prev != firstWordness kw) && (lastWordness kw != firstWordness rest)

/-- Scan all positions of `text` for a `\bkw\b` match. -/
def wholeWordSearch (kw : List Char) (prev : Option Char) : List Char → Bool
  | [] => wholeWordAt kw prev []
  | c :: rest => wholeWordAt kw prev (c :: rest) || wholeWordSearch kw (some c) rest

def testKeyword (kw : String) (text : String) : Bool :=
  wholeWordSearch kw.data none text.data

/-! ### Relevance scorer (`scoreArticles`) -/

/-- `srcFreq` is keyed by `a.source || 'unknown'`. -/
def srcKey (s : String) : String := if s = "" then "unknown" else s

/-- Increment the count of `k` in an insertion-ordered association list. -/
def bumpCount : List (String × Nat) → String → List (String × Nat)
  | [], k => [(k, 1)]
  | (k2, n) :: rest, k =>
    if k2 = k then (k2, n + 1) :: rest else (k2, n) :: bumpCount rest k

def srcFreqOf : List Article → List (String × Nat) → List (String × Nat)
  | [], acc => acc
  | a :: rest, acc => srcFreqOf rest (bumpCount acc (srcKey a.source))

/-- `srcFreq[s]`: `none` models the `undefined` returned for a missing key. -/
def lookupCount (freq : List (String × Nat)) (s : String) : Option Nat :=
  (freq.find? (fun q => q.1 == s)).map (·.2)

/-- `Math.max(1, ...Object.values(srcFreq))`. -/
def maxSrcFreq (freq : List (String × Nat)) : Nat :=
  freq.foldl (fun m q => max m q.2) 1

/-- `(+x.toFixed(4))`: round to four decimal places. -/
def round4 (q : ℚ) : ℚ := (⌊q * 10000 + 1 / 2⌋ : ℚ) / 10000

/-- `(now - t) / 36e5`. -/
def ageHoursOf (now t : Int) : ℚ := ((now : ℚ) - (t : ℚ)) / 3600000

/-- `recency = 1 / (1 + ageHours / 12)`.  (At `ageHours = -12` JavaScript
produces `Infinity` where `ℚ` division by zero produces `0`; the theorems
below stay away from that pole.) -/
def recencyOf (ageHours : ℚ) : ℚ := 1 / (1 + ageHours / 12)

/-- Number of trend keywords with a whole-word match in `text`. -/
def kwHitsOf (text : String) : Nat :=
  (TREND_KEYWORDS.filter (fun kw => testKeyword kw text)).length

structure ScoredArticle extends Article where
  /-- `none` models a `NaN` score. -/
  score : Option ℚ
deriving DecidableEq

/-- Per-article body of `scoreArticles`.  `dateParse` models `Date.parse`
(`none` for `NaN`); `Date.parse(s) || now` turns both `NaN` and `0` into
`now`.  Note the source bug modelled faithfully here: `srcFreq` is keyed by
`a.source || 'unknown'` but looked up by plain `a.source`, so an empty
source yields `undefined / maxSrcFreq = NaN`. -/
def scoreOne (now : Int) (dateParse : String → Option Int)
    (freq : List (String × Nat)) (maxF : Nat) (a : Article) : ScoredArticle :=
  let t : Int :=
    match dateParse a.publishedAt with
    | none => now
    | some v => if v = 0 then now else v
  let recency := recencyOf (ageHoursOf now t)
  let textForKw := jsLower (a.title ++ " " ++ a.description)
  let keywordBoost : ℚ := (min (kwHitsOf textForKw) 6 : ℚ) * (0.15 : ℚ)
  let descLen := a.description.length
  let lengthQuality : ℚ :=
    if descLen > 300 then (0.25 : ℚ) else if descLen > 120 then (0.15 : ℚ)
    else if descLen > 60 then (0.05 : ℚ) else 0
  let penalty : ℚ := if a.title.length < 25 then (0.1 : ℚ) else 0
  let score : Option ℚ :=
    match lookupCount freq a.source with
    | none => none
    | some n =>
      some (round4 (recency + keywordBoost + ((n : ℚ) / (maxF : ℚ)) * (0.6 : ℚ)
        + lengthQuality - penalty))
  ⟨a, score⟩

def scoreArticles (now : Int) (dateParse : String → Option Int)
    (articles : List Article) : List ScoredArticle :=
  let freq := srcFreqOf articles []
  let maxF := maxSrcFreq freq
  articles.map (scoreOne now dateParse freq maxF)

/-! ### Response parsing (`parseClusterJson`) -/

/-- The regex `\{[\s\S]*\}$`: when the text contains a `{` and ends with a
`}`, the match is the substring from the first `{` to the end; otherwise the
raw text is used unchanged. -/
def extractBraced (raw : String) : String :=
  if raw.data.contains '{' && raw.data.getLast? == some '}' then
    String.mk (raw.data.dropWhile (fun c => !(c == '{')))
  else raw

/-- `parseClusterJson`, projected to the `trendingTopics` list the caller
uses.  The `try`/`catch` and the `Array.isArray` check collapse every failure
case to the empty list. -/
def parseClusterJson (raw : String) : List JsonValue :=
  match jsonParse (extractBraced raw) with
  | some v =>
    match getField v "trendingTopics" with
    | some (.arr topics) => topics
    | _ => []
  | none => []

/-! ### Fallback clustering -/

/-- Character class of `title.split(/[^A-Za-z0-9一-龠ぁ-んァ-ン]+/)`:
ASCII alphanumerics, CJK ideographs, hiragana, katakana. -/
def titleTokenChar (c : Char) : Bool :=
  ('A' ≤ c && c ≤ 'Z') || ('a' ≤ c && c ≤ 'z') || ('0' ≤ c && c ≤ '9') ||
  (0x4E00 ≤ c.toNat && c.toNat ≤ 0x9FA0) ||
  (0x3041 ≤ c.toNat && c.toNat ≤ 0x3093) ||
  (0x30A1 ≤ c.toNat && c.toNat ≤ 0x30F3)

/-- Maximal runs of token characters (the split plus `filter(Boolean)`). -/
def tokenRuns : List Char → List Char → List String
  | [], acc => if acc.isEmpty then [] else [String.mk acc.reverse]
  | c :: rest, acc =>
    if titleTokenChar c then tokenRuns rest (c :: acc)
    else if acc.isEmpty then tokenRuns rest []
    else String.mk acc.reverse :: tokenRuns rest []

def titleTokens (s : String) : List String := tokenRuns s.data []

def bumpTokens : List (String × Nat) → List String → List (String × Nat)
  | freq, [] => freq
  | freq, w :: ws => bumpTokens (bumpCount freq (jsLower w)) ws

/-- Word-frequency table over all article titles (insertion-ordered; the
integer-like-key reordering of `Object.entries` affects only the order among
entries, which no verified property depends on). -/
def wordFreqOf : List Article → List (String × Nat) → List (String × Nat)
  | [], acc => acc
  | a :: rest, acc => wordFreqOf rest (bumpTokens acc (titleTokens a.title))

/-- `.filter(k.length > 2).sort((a, b) => b[1] - a[1]).slice(0, 3)`. -/
def topWords (ct : List Article) : List (String × Nat) :=
  (sortLe (fun e f => decide (f.2 ≤ e.2))
    ((wordFreqOf ct []).filter (fun q => q.1.length > 2))).take 3

/-- `publishedAt?.slice(0, 10)`. -/
def jsSlice10 (s : String) : String := String.mk (s.data.take 10)

/-- One synthesized fallback topic, as the JSON object the route emits. -/
def fallbackTopic (ct : List Article) (word : String) : JsonValue :=
  let matching := ct.filter (fun a => containsSub word.data (jsLower a.title).data)
  .obj
    [("topic", .str ("頻出語:" ++ word)),
     ("reason", .str "頻出語頻度による暫定トピック"),
     ("articles", .arr ((matching.take 5).map (fun a => .num (a.index : ℚ)))),
     ("message", .str (word ++ " に関する報道集中")),
     ("support", .arr [.str "頻度分析フォールバック"]),
     ("significance", .str "暫定的示唆"),
     ("citations", .arr ((matching.take 2).map (fun a =>
       .str (a.title ++ ". " ++ a.source ++ ". " ++ jsSlice10 a.publishedAt ++ ". " ++ a.url))))]

def fallbackTopics (ct : List Article) : List JsonValue :=
  (topWords ct).map (fun q => fallbackTopic ct q.1)

/-- The emitted topic list: the parsed topics, or the fallback when the
parsed list is empty. -/
def clusterTopics (modelText : String) (ct : List Article) : List JsonValue :=
  let parsed := parseClusterJson modelText
  if parsed.isEmpty then fallbackTopics ct else parsed

/-- Claim-side helper: the numeric entries of a topic's `articles` field. -/
def topicArticleNums (t : JsonValue) : List ℚ :=
  match getField t "articles" with
  | some (.arr xs) =>
    xs.filterMap (fun v => match v with | .num q => some q | _ => none)
  | _ => []

/-! ### Orchestrator (`POST`) -/

/-- A request-body field, abstracted by its image under `Number(·)`:
`nonNumeric` stands for any value whose `Number(·)` is `NaN`. -/
inductive JsVal where
  | num (q : ℚ)
  | nonNumeric
deriving DecidableEq

def jsNumber : JsVal → Option ℚ
  | .num q => some q
  | .nonNumeric => none

/-- `Math.min(Math.max(v, lo), hi)`; both propagate `NaN` (`none`). -/
def clampNum (v : Option ℚ) (lo hi : ℚ) : Option ℚ :=
  v.map (fun q => min (max q lo) hi)

structure RetailTrendingRequest where
  days : Option JsVal := none
  pages : Option JsVal := none
  pageSize : Option JsVal := none

/-- Re-index to the contiguous `1..N` used for the cluster prompt. -/
def reIndex (l : List Article) : List Article :=
  l.enum.map (fun q => { q.2 with index := q.1 + 1 })

structure ScoredOut where
  title : String
  description : String
  url : String
  source : String
  publishedAt : String
  score : Option ℚ
deriving DecidableEq

def toScoredOut (s : ScoredArticle) : ScoredOut :=
  ⟨s.title, s.description, s.url, s.source, s.publishedAt, s.score⟩

structure OkResponse where
  totalFetched : Nat
  articlesUsedForClustering : Nat
  trendingTopics : List JsonValue
  scoredArticles : List ScoredOut
  clusteredArticles : List Article

inductive PostResponse where
  | fail (status : Nat)
  | ok (r : OkResponse)

/-- Page numbers visited by `for (p = 1; p <= pages; p++)`: none when
`pages` is `NaN`; otherwise `{1, …, ⌊pages⌋}` (sound because `pages` has
been clamped into `[1, 5]`). -/
def pagesList : Option ℚ → List Nat
  | none => []
  | some q => ((List.range 5).map (· + 1)).filter (fun p => decide ((p : ℚ) ≤ q))

/-- Comparator `(a, b) => a.publishedAt < b.publishedAt ? 1 : -1`:
`a` keeps its place before `b` unless `a.publishedAt < b.publishedAt`. -/
def pubDesc (a b : Article) : Bool := !(decide (a.publishedAt < b.publishedAt))

/-- Comparator `(a, b) => b.score - a.score`; a `NaN` difference is treated
as `0` by `Array.prototype.sort`, keeping the relative order. -/
def scoreDesc (a b : ScoredArticle) : Bool :=
  match a.score, b.score with
  | some x, some y => decide (y ≤ x)
  | _, _ => true

/-- The `POST` orchestrator.  External effects are parameters: `fetches`
gives each `(sortBy, page)` fetch's result (a failed fetch is an empty
list), `modelText` the completion text, `dateParse` models `Date.parse`,
and the two Booleans whether the API keys are configured.  `.fail s` models
an error response with HTTP status `s`; a `NaN` `days` reaches
`new Date(NaN).toISOString()`, which throws and is caught into a 500. -/
def POST (now : Int) (dateParse : String → Option Int)
    (hasNewsKey hasOpenAiKey : Bool)
    (fetches : String → Nat → List RawNewsArticle)
    (modelText : String)
    (body : RetailTrendingRequest) : PostResponse :=
  let daysC := clampNum (jsNumber (body.days.getD (.num 3))) 1 30
  let pagesC := clampNum (jsNumber (body.pages.getD (.num 2))) 1 5
  let _pageSizeC := clampNum (jsNumber (body.pageSize.getD (.num 50))) 1 100
  if !hasNewsKey then .fail 500
  else if !hasOpenAiKey then .fail 500
  else
    match daysC with
    | none => .fail 500
    | some _ =>
      let mergedRaw :=
        ((["publishedAt", "popularity"].map (fun sortBy =>
          (pagesList pagesC).map (fun p => fetches sortBy p))).flatten).flatten
      let normalized := normalize mergedRaw
      let sorted := sortLe pubDesc normalized
      let scored := scoreArticles now dateParse sorted
      let clusterSource := sortLe scoreDesc scored
      let clusterTarget := reIndex ((clusterSource.take 100).map (·.toArticle))
      let topics := clusterTopics modelText clusterTarget
      .ok
        { totalFetched := mergedRaw.length
          articlesUsedForClustering := clusterTarget.length
          trendingTopics := topics
          scoredArticles := (clusterSource.take 200).map toScoredOut
          clusteredArticles := clusterTarget }

end Trending

/-! ## The summarize route

Embedding of the deduplication and diversity-selection stages of the
summarize route (`src/app/api/summarize/route.ts`, lines 191–220). -/

namespace Summarize

open JsModel

structure Article where
  title : String
  description : String
  url : String
  source : String
  publishedAt : String
deriving DecidableEq

/-- The dedup key actually computed by the code:
`(item.title || item.url).trim().toLowerCase()`. -/
def dedupKey (a : Article) : String := jsLower (jsTrim (jsOrStr a.title a.url))

/-- Modelled from the spec: the identity key of §4.2,
`(title.trim() || url.trim()).toLowerCase()`. -/
def specKey (a : Article) : String := jsLower (jsOrStr (jsTrim a.title) (jsTrim a.url))

/-- The dedup loop: skip an empty key, skip a seen key, keep the first
occurrence otherwise. -/
def dedupeFrom : List Article → List String → List Article
  | [], _ => []
  | a :: rest, seen =>
    if dedupKey a = "" then dedupeFrom rest seen
    else if dedupKey a ∈ seen then dedupeFrom rest seen
    else a :: dedupeFrom rest (dedupKey a :: seen)

def dedupeArticles (l : List Article) : List Article := dedupeFrom l []

/-- Modelled from the spec: first-occurrence-wins deduplication under the
§4.2 identity key, dropping empty-key articles. -/
def specDedupeFrom : List Article → List String → List Article
  | [], _ => []
  | a :: rest, seen =>
    if specKey a = "" then specDedupeFrom rest seen
    else if specKey a ∈ seen then specDedupeFrom rest seen
    else a :: specDedupeFrom rest (specKey a :: seen)

def specDedupe (l : List Article) : List Article := specDedupeFrom l []

/-- First phase of the diversity selector: walk the deduplicated list,
keeping the first article of each not-yet-seen source; after each article,
stop when `pageSize` sources are collected (`bySource.size >= pageSize`). -/
def pickBySource (k : Nat) : List Article → List String → List Article
  | [], _ => []
  | a :: rest, srcs =>
    if a.source ∈ srcs then
      if k ≤ srcs.length then [] else pickBySource k rest srcs
    else
      if k ≤ srcs.length + 1 then [a] else a :: pickBySource k rest (a.source :: srcs)

/-- Backfill phase: append not-yet-picked articles in original order until
`pageSize` articles are picked or the input is exhausted. -/
def backfill (k : Nat) : List Article → List Article → List Article
  | [], picked => picked
  | a :: rest, picked =>
    if k ≤ picked.length then picked
    else if a ∈ picked then backfill k rest picked
    else backfill k rest (picked ++ [a])

/-- The diversity selector (`preferDiverseSources` enabled):
source-distinct picks, conditional backfill, `slice(0, pageSize)`. -/
def selectDiverse (k : Nat) (deduped : List Article) : List Article :=
  let picked := pickBySource k deduped []
  let picked2 := if picked.length < k then backfill k deduped picked else picked
  picked2.take k

/-- Number of distinct source values in a list of articles. -/
def srcCount (l : List Article) : Nat := (l.map (·.source)).toFinset.card

/-- Proof-side measure: distinct sources of `l` not yet present in `srcs`. -/
def dNewSources (l : List Article) (srcs : List String) : Nat :=
  ((l.map (·.source)).toFinset \ srcs.toFinset).card

end Summarize


/-! ## Supporting lemmas -/

namespace JsModel

theorem length_insertLe {α : Type} (le : α → α → Bool) (a : α) (l : List α) :
    (insertLe le a l).length = l.length + 1 := by
  induction l with
  | nil => rfl
  | cons b bs ih =>
    simp only [insertLe]
    by_cases h : le a b = true
    · simp [h]
    · simp [h, ih]

theorem length_sortLe {α : Type} (le : α → α → Bool) (l : List α) :
    (sortLe le l).length = l.length := by
  induction l with
  | nil => rfl
  | cons a as ih => simp [sortLe, length_insertLe, ih]

theorem jsLower_empty : jsLower "" = "" := rfl

theorem jsTrim_empty : jsTrim "" = "" := rfl

end JsModel

namespace Trending

theorem scoreOne_toArticle (now : Int) (dp : String → Option Int)
    (freq : List (String × Nat)) (maxF : Nat) (a : Article) :
    (scoreOne now dp freq maxF a).toArticle = a := rfl

end Trending

namespace Summarize

open JsModel

theorem dedupeFrom_sublist (l : List Article) (seen : List String) :
    (dedupeFrom l seen).Sublist l := by
  induction l generalizing seen with
  | nil => exact .refl []
  | cons a rest ih =>
    simp only [dedupeFrom]
    split
    · exact (ih seen).cons a
    · split
      · exact (ih seen).cons a
      · exact (ih _).cons₂ a

theorem dedupeFrom_keys (l : List Article) (seen : List String) :
    ((dedupeFrom l seen).map dedupKey).Nodup ∧
      ∀ a ∈ dedupeFrom l seen, dedupKey a ∉ seen ∧ dedupKey a ≠ "" := by
  induction l generalizing seen with
  | nil => simp [dedupeFrom]
  | cons a rest ih =>
    simp only [dedupeFrom]
    split
    · exact ih seen
    · next hne =>
      split
      · exact ih seen
      · next hnin =>
        obtain ⟨ihn, ihm⟩ := ih (dedupKey a :: seen)
        refine ⟨?_, ?_⟩
        · simp only [List.map_cons, List.nodup_cons]
          refine ⟨fun hmem => ?_, ihn⟩
          obtain ⟨b, hb, hkb⟩ := List.mem_map.mp hmem
          exact (ihm b hb).1 (by rw [hkb]; exact List.mem_cons_self _ _)
        · intro b hb
          rcases List.mem_cons.mp hb with hba | hbr
          · subst hba; exact ⟨hnin, hne⟩
          · obtain ⟨h1, h2⟩ := ihm b hbr
            exact ⟨fun hs => h1 (List.mem_cons_of_mem _ hs), h2⟩

/-- On every article the code retains, the code's key and the spec's §4.2
key agree. -/
theorem specKey_eq_dedupKey (a : Article) (h : dedupKey a ≠ "") :
    specKey a = dedupKey a := by
  unfold specKey dedupKey jsOrStr at *
  by_cases ht : a.title = ""
  · simp [ht, jsTrim_empty]
  · simp only [if_neg ht] at h ⊢
    by_cases htt : jsTrim a.title = ""
    · rw [htt, jsLower_empty] at h
      exact absurd rfl h
    · simp only [if_neg htt]

/-- First occurrence wins: an input article with a non-empty key and no
earlier same-key article is retained, whatever keys are already seen that
its own key is not among. -/
theorem dedupeFrom_first_occ (l₁ : List Article) (a : Article) (l₂ : List Article)
    (seen : List String) (hsn : dedupKey a ∉ seen) (hne : dedupKey a ≠ "")
    (hfirst : ∀ b ∈ l₁, dedupKey b ≠ dedupKey a) :
    a ∈ dedupeFrom (l₁ ++ a :: l₂) seen := by
  induction l₁ generalizing seen with
  | nil =>
    simp only [List.nil_append, dedupeFrom]
    rw [if_neg hne, if_neg hsn]
    exact List.mem_cons_self _ _
  | cons b rest ih =>
    have hb : dedupKey b ≠ dedupKey a := hfirst b (List.mem_cons_self _ _)
    have hrest : ∀ c ∈ rest, dedupKey c ≠ dedupKey a :=
      fun c hc => hfirst c (List.mem_cons_of_mem _ hc)
    simp only [List.cons_append, dedupeFrom]
    split
    · exact ih seen hsn hrest
    · split
      · exact ih seen hsn hrest
      · refine List.mem_cons_of_mem b (ih (dedupKey b :: seen) ?_ hrest)
        intro hc
        rcases List.mem_cons.mp hc with h | h
        · exact hb h.symm
        · exact hsn h

end Summarize

/-! ## Claims -/

/-- C5 counterexample: the code's dedup key is
`(title || url).trim().toLowerCase()`, not the claimed
`(title.trim() || url.trim()).toLowerCase()`.  An article with a
whitespace-only title and a non-empty url has a non-empty claimed key (so
the claim would retain this first occurrence), yet the code drops it. -/
theorem c5_counterexample :
    Summarize.dedupeArticles [⟨" ", "", "u", "s", ""⟩] = [] ∧
    Summarize.specDedupe [⟨" ", "", "u", "s", ""⟩] = [⟨" ", "", "u", "s", ""⟩] ∧
    Summarize.specKey ⟨" ", "", "u", "s", ""⟩ = "u" := by
  exact ⟨rfl, rfl, rfl⟩

/-- C5 (amended): the Deduplicator's output is an order-preserving
subsequence with first occurrence winning for the key
`(title || url).trim().toLowerCase()` — the earliest input article of every
non-empty key class is retained; no two retained articles share that key
(nor, consequently, the spec's `(title.trim() || url.trim()).toLowerCase()`
key), and every retained article has a non-empty key. -/
theorem c5_amended_dedup_invariants (l : List Summarize.Article) :
    (Summarize.dedupeArticles l).Sublist l ∧
    ((Summarize.dedupeArticles l).map Summarize.dedupKey).Nodup ∧
    (∀ a ∈ Summarize.dedupeArticles l, Summarize.dedupKey a ≠ "") ∧
    ((Summarize.dedupeArticles l).map Summarize.specKey).Nodup ∧
    (∀ l₁ (a : Summarize.Article) l₂, l = l₁ ++ a :: l₂ →
      Summarize.dedupKey a ≠ "" →
      (∀ b ∈ l₁, Summarize.dedupKey b ≠ Summarize.dedupKey a) →
      a ∈ Summarize.dedupeArticles l) := by
  obtain ⟨hn, hm⟩ := Summarize.dedupeFrom_keys l []
  have hmap : (Summarize.dedupeArticles l).map Summarize.specKey =
      (Summarize.dedupeArticles l).map Summarize.dedupKey := by
    refine List.map_congr_left fun a ha => ?_
    exact Summarize.specKey_eq_dedupKey a (hm a ha).2
  refine ⟨Summarize.dedupeFrom_sublist l [], hn,
    fun a ha => (hm a ha).2, by rw [hmap]; exact hn, ?_⟩
  rintro l₁ a l₂ rfl hne hfirst
  exact Summarize.dedupeFrom_first_occ l₁ a l₂ [] (List.not_mem_nil _) hne hfirst

/-- C6: the claim's scoring formula is the code's intent, but the code
tallies `srcFreq` under the key `a.source || 'unknown'` and then looks it up
under plain `a.source`; for an article with an empty source the lookup is
`undefined`, so the score is `NaN` instead of the claimed
`round(recency + keywordBoost + crossSource + lengthQuality - penalty, 4)`
(which here would be `round(1 + 0 + 0.6 + 0 - 0.1, 4) = 1.5`). -/
theorem c6_empty_source_score_is_nan :
    (Trending.scoreArticles 0 (fun _ => none) [⟨1, "", "", "u", "", ""⟩]).map (·.score)
      = [none] ∧
    Trending.round4 (Trending.recencyOf 0 + 0 + (1 / 1) * (0.6 : ℚ) + 0 - 0.1) = 1.5 := by
  constructor
  · rfl
  · norm_num [Trending.round4, Trending.recencyOf]

/-- C7 counterexample: recency is not monotone in `ageHours` across the pole
at `-12` (a future-dated timestamp more than 12 hours ahead).  Decreasing
`ageHours` from `-11` to `-13` (both reachable: `t = now + 11h`,
`t = now + 13h`) decreases recency from `12` to `-12`. -/
theorem c7_counterexample :
    Trending.ageHoursOf 360000000 (360000000 + 13 * 3600000) = -13 ∧
    Trending.ageHoursOf 360000000 (360000000 + 11 * 3600000) = -11 ∧
    (-13 : ℚ) < -11 ∧
    Trending.recencyOf (-13) < Trending.recencyOf (-11) := by
  refine ⟨?_, ?_, by norm_num, ?_⟩
  · norm_num [Trending.ageHoursOf]
  · norm_num [Trending.ageHoursOf]
  · norm_num [Trending.recencyOf]

/-- C7 (amended): on the side of the pole actually inhabited by past and
mildly future timestamps, i.e. for `ageHours > -12`, decreasing `ageHours`
never decreases `recency = 1 / (1 + ageHours / 12)`. -/
theorem c7_amended_recency_antitone (h1 h2 : ℚ) (hlo : -12 < h1) (hle : h1 ≤ h2) :
    Trending.recencyOf h2 ≤ Trending.recencyOf h1 := by
  unfold Trending.recencyOf
  have d1 : 0 < 1 + h1 / 12 := by linarith
  exact one_div_le_one_div_of_le d1 (by linarith)

theorem c7_witness : Trending.recencyOf 12 ≤ Trending.recencyOf 0 :=
  c7_amended_recency_antitone 0 12 (by norm_num) (by norm_num)

/-- C9: `parseClusterJson` is total; it returns the parsed `trendingTopics`
value exactly when the extracted `{...}` block (or, when no block can be
extracted, the whole text) parses as JSON whose `trendingTopics` field is an
array, and returns the empty topic list in every other case. -/
theorem c9_parseClusterJson_characterization (raw : String) :
    (∃ v topics, JsModel.jsonParse (Trending.extractBraced raw) = some v ∧
        JsModel.getField v "trendingTopics" = some (JsModel.JsonValue.arr topics) ∧
        Trending.parseClusterJson raw = topics) ∨
    ((¬ ∃ v topics, JsModel.jsonParse (Trending.extractBraced raw) = some v ∧
        JsModel.getField v "trendingTopics" = some (JsModel.JsonValue.arr topics)) ∧
      Trending.parseClusterJson raw = []) := by
  cases hj : JsModel.jsonParse (Trending.extractBraced raw) with
  | none =>
    refine Or.inr ⟨?_, by simp [Trending.parseClusterJson, hj]⟩
    rintro ⟨v, ts, hv, -⟩
    exact Option.noConfusion hv
  | some v =>
    cases hf : JsModel.getField v "trendingTopics" with
    | none =>
      refine Or.inr ⟨?_, by simp [Trending.parseClusterJson, hj, hf]⟩
      rintro ⟨w, ts, hw, hfw⟩
      obtain rfl : v = w := Option.some.inj hw
      rw [hf] at hfw
      exact Option.noConfusion hfw
    | some topicsVal =>
      cases topicsVal with
      | arr topics =>
        exact Or.inl ⟨v, topics, rfl, hf, by simp [Trending.parseClusterJson, hj, hf]⟩
      | null =>
        refine Or.inr ⟨?_, by simp [Trending.parseClusterJson, hj, hf]⟩
        rintro ⟨w, ts, hw, hfw⟩
        obtain rfl : v = w := Option.some.inj hw
        rw [hf] at hfw
        simp at hfw
      | bool b =>
        refine Or.inr ⟨?_, by simp [Trending.parseClusterJson, hj, hf]⟩
        rintro ⟨w, ts, hw, hfw⟩
        obtain rfl : v = w := Option.some.inj hw
        rw [hf] at hfw
        simp at hfw
      | num q =>
        refine Or.inr ⟨?_, by simp [Trending.parseClusterJson, hj, hf]⟩
        rintro ⟨w, ts, hw, hfw⟩
        obtain rfl : v = w := Option.some.inj hw
        rw [hf] at hfw
        simp at hfw
      | str s =>
        refine Or.inr ⟨?_, by simp [Trending.parseClusterJson, hj, hf]⟩
        rintro ⟨w, ts, hw, hfw⟩
        obtain rfl : v = w := Option.some.inj hw
        rw [hf] at hfw
        simp at hfw
      | obj fields =>
        refine Or.inr ⟨?_, by simp [Trending.parseClusterJson, hj, hf]⟩
        rintro ⟨w, ts, hw, hfw⟩
        obtain rfl : v = w := Option.some.inj hw
        rw [hf] at hfw
        simp at hfw

/-- C10: `scoreArticles` returns exactly one scored article per input
article, in order, with every field of the original article unchanged; the
only addition is the `score` field. -/
theorem c10_scoreArticles_frame (now : Int) (dateParse : String → Option Int)
    (articles : List Trending.Article) :
    (Trending.scoreArticles now dateParse articles).map (·.toArticle) = articles := by
  have h : Trending.scoreArticles now dateParse articles =
      articles.map (Trending.scoreOne now dateParse (Trending.srcFreqOf articles [])
        (Trending.maxSrcFreq (Trending.srcFreqOf articles []))) := rfl
  rw [h, List.map_map]
  have h2 : ((fun x : Trending.ScoredArticle => x.toArticle) ∘
      Trending.scoreOne now dateParse (Trending.srcFreqOf articles [])
        (Trending.maxSrcFreq (Trending.srcFreqOf articles []))) = id := by
    funext a
    rfl
  rw [h2, List.map_id]

namespace Trending

theorem clampNum_isSome_bounds (v : Option ℚ) (lo hi : ℚ) (hv : v.isSome)
    (hlohi : lo ≤ hi) :
    ∃ q, clampNum v lo hi = some q ∧ lo ≤ q ∧ q ≤ hi := by
  obtain ⟨x, rfl⟩ := Option.isSome_iff_exists.mp hv
  exact ⟨min (max x lo) hi, rfl, le_min (le_max_right x lo) hlohi, min_le_right _ _⟩

end Trending

/-- C3 counterexample: a non-numeric field is not clamped into range —
`Number(body.days)` is `NaN`, `Math.min(Math.max(NaN, 1), 30)` is `NaN`,
and `new Date(NaN).toISOString()` then throws, so the request yields a 500
error response rather than a clamped value. -/
theorem c3_counterexample :
    Trending.clampNum (Trending.jsNumber Trending.JsVal.nonNumeric) 1 30 = none ∧
    Trending.POST 0 (fun _ => none) true true (fun _ _ => []) ""
        ⟨some Trending.JsVal.nonNumeric, some (Trending.JsVal.num 1),
          some (Trending.JsVal.num 10)⟩ =
      Trending.PostResponse.fail 500 :=
  ⟨rfl, rfl⟩

/-- C3 (amended): for each of `days`, `pages`, `pageSize`, whenever
`Number(field ?? default)` is an actual number (the field is missing or
numeric), the clamped value exists and lies in the documented range
([1,30], [1,5], [1,100]); a missing field yields exactly the defaults
3, 2 and 50.  A non-numeric field instead propagates `NaN` (see the
counterexample). -/
theorem c3_amended_clamps (days pages pageSize : Option Trending.JsVal)
    (hd : (Trending.jsNumber (days.getD (Trending.JsVal.num 3))).isSome)
    (hp : (Trending.jsNumber (pages.getD (Trending.JsVal.num 2))).isSome)
    (hs : (Trending.jsNumber (pageSize.getD (Trending.JsVal.num 50))).isSome) :
    (∃ q, Trending.clampNum (Trending.jsNumber (days.getD (Trending.JsVal.num 3))) 1 30 =
        some q ∧ 1 ≤ q ∧ q ≤ 30) ∧
    (∃ q, Trending.clampNum (Trending.jsNumber (pages.getD (Trending.JsVal.num 2))) 1 5 =
        some q ∧ 1 ≤ q ∧ q ≤ 5) ∧
    (∃ q, Trending.clampNum (Trending.jsNumber (pageSize.getD (Trending.JsVal.num 50))) 1 100 =
        some q ∧ 1 ≤ q ∧ q ≤ 100) ∧
    Trending.clampNum (Trending.jsNumber ((none : Option Trending.JsVal).getD
      (Trending.JsVal.num 3))) 1 30 = some 3 ∧
    Trending.clampNum (Trending.jsNumber ((none : Option Trending.JsVal).getD
      (Trending.JsVal.num 2))) 1 5 = some 2 ∧
    Trending.clampNum (Trending.jsNumber ((none : Option Trending.JsVal).getD
      (Trending.JsVal.num 50))) 1 100 = some 50 := by
  refine ⟨Trending.clampNum_isSome_bounds _ 1 30 hd (by norm_num),
    Trending.clampNum_isSome_bounds _ 1 5 hp (by norm_num),
    Trending.clampNum_isSome_bounds _ 1 100 hs (by norm_num), ?_, ?_, ?_⟩
  · show some (min (max 3 1) 30) = some (3 : ℚ)
    norm_num
  · show some (min (max 2 1) 5) = some (2 : ℚ)
    norm_num
  · show some (min (max 50 1) 100) = some (50 : ℚ)
    norm_num

theorem c3_witness :
    (∃ q, Trending.clampNum (Trending.jsNumber ((some (Trending.JsVal.num 100)).getD
        (Trending.JsVal.num 3))) 1 30 = some q ∧ 1 ≤ q ∧ q ≤ 30) ∧
    (∃ q, Trending.clampNum (Trending.jsNumber ((some (Trending.JsVal.num 0)).getD
        (Trending.JsVal.num 2))) 1 5 = some q ∧ 1 ≤ q ∧ q ≤ 5) ∧
    (∃ q, Trending.clampNum (Trending.jsNumber ((none : Option Trending.JsVal).getD
        (Trending.JsVal.num 50))) 1 100 = some q ∧ 1 ≤ q ∧ q ≤ 100) ∧
    Trending.clampNum (Trending.jsNumber ((none : Option Trending.JsVal).getD
      (Trending.JsVal.num 3))) 1 30 = some 3 ∧
    Trending.clampNum (Trending.jsNumber ((none : Option Trending.JsVal).getD
      (Trending.JsVal.num 2))) 1 5 = some 2 ∧
    Trending.clampNum (Trending.jsNumber ((none : Option Trending.JsVal).getD
      (Trending.JsVal.num 50))) 1 100 = some 50 :=
  c3_amended_clamps (some (Trending.JsVal.num 100)) (some (Trending.JsVal.num 0)) none
    rfl rfl rfl

namespace Trending

open JsModel

theorem mem_keys_bumpCount (f : List (String × Nat)) (k x : String) :
    x ∈ (bumpCount f k).map Prod.fst ↔ x ∈ f.map Prod.fst ∨ x = k := by
  induction f with
  | nil => simp [bumpCount]
  | cons p rest ih =>
    obtain ⟨k2, n⟩ := p
    simp only [bumpCount]
    split
    · next heq =>
      subst heq
      simp only [List.map_cons, List.mem_cons]
      tauto
    · next hne =>
      simp only [List.map_cons, List.mem_cons, ih]
      tauto

theorem mem_keys_bumpTokens (ws : List String) (f : List (String × Nat)) (x : String) :
    x ∈ (bumpTokens f ws).map Prod.fst ↔
      x ∈ f.map Prod.fst ∨ ∃ w ∈ ws, jsLower w = x := by
  induction ws generalizing f with
  | nil => simp [bumpTokens]
  | cons w ws ih =>
    simp only [bumpTokens]
    rw [ih, mem_keys_bumpCount]
    simp only [List.mem_cons, exists_eq_or_imp]
    tauto

theorem mem_keys_wordFreqOf (ct : List Article) (acc : List (String × Nat)) (x : String) :
    x ∈ (wordFreqOf ct acc).map Prod.fst ↔
      x ∈ acc.map Prod.fst ∨ ∃ a ∈ ct, ∃ w ∈ titleTokens a.title, jsLower w = x := by
  induction ct generalizing acc with
  | nil => simp [wordFreqOf]
  | cons a rest ih =>
    simp only [wordFreqOf]
    rw [ih, mem_keys_bumpTokens]
    simp only [List.mem_cons, exists_eq_or_imp]
    exact or_assoc

theorem topWords_ne_nil_iff (ct : List Article) :
    topWords ct ≠ [] ↔
      ∃ a ∈ ct, ∃ w ∈ titleTokens a.title, 2 < (jsLower w).length := by
  have hlen : (topWords ct).length =
      min 3 (((wordFreqOf ct []).filter (fun q => q.1.length > 2)).length) := by
    rw [topWords, List.length_take, length_sortLe]
  rw [← List.length_pos, hlen, lt_min_iff, and_iff_right (by norm_num : (0 : ℕ) < 3),
    ← List.countP_eq_length_filter, List.countP_pos_iff]
  constructor
  · rintro ⟨e, he, hp⟩
    have hx : e.1 ∈ (wordFreqOf ct []).map Prod.fst := List.mem_map_of_mem _ he
    rw [mem_keys_wordFreqOf] at hx
    rcases hx with hx | ⟨a, ha, w, hw, hlw⟩
    · simp at hx
    · exact ⟨a, ha, w, hw, by rw [hlw]; exact of_decide_eq_true hp⟩
  · rintro ⟨a, ha, w, hw, hlw⟩
    have hx : jsLower w ∈ (wordFreqOf ct []).map Prod.fst := by
      rw [mem_keys_wordFreqOf]
      exact Or.inr ⟨a, ha, w, hw, rfl⟩
    obtain ⟨e, he, hex⟩ := List.mem_map.mp hx
    refine ⟨e, he, decide_eq_true ?_⟩
    rw [hex]
    exact hlw

end Trending

/-- C2 counterexample: an article list whose only title tokenizes to words of
length ≤ 2 defeats the frequent-word fallback, so a non-empty input with an
unparsable model response still yields an empty topic list. -/
theorem c2_counterexample :
    Trending.parseClusterJson "" = [] ∧
    Trending.clusterTopics "" [⟨1, "ab", "", "u", "s", ""⟩] = [] ∧
    ([⟨1, "ab", "", "u", "s", ""⟩] : List Trending.Article) ≠ [] := by
  refine ⟨rfl, rfl, by simp⟩

/-- C2 (amended): when the model response parses to no topics, the fallback
returns at least one TrendingTopic exactly when some input article's title
contains an alphanumeric/CJK token that is longer than 2 characters after
lower-casing; otherwise the topic list is empty even for non-empty input. -/
theorem c2_amended_fallback_iff (ct : List Trending.Article) (text : String)
    (h : Trending.parseClusterJson text = []) :
    Trending.clusterTopics text ct ≠ [] ↔
      ∃ a ∈ ct, ∃ w ∈ Trending.titleTokens a.title, 2 < (JsModel.jsLower w).length := by
  have hct : Trending.clusterTopics text ct = Trending.fallbackTopics ct := by
    unfold Trending.clusterTopics
    rw [h]
    rfl
  rw [hct]
  have hmap : Trending.fallbackTopics ct = [] ↔ Trending.topWords ct = [] := by
    unfold Trending.fallbackTopics
    exact List.map_eq_nil_iff
  rw [ne_eq, hmap, ← ne_eq]
  exact Trending.topWords_ne_nil_iff ct

theorem c2_witness : Trending.clusterTopics "" [⟨1, "sale", "", "u", "s", ""⟩] ≠ [] :=
  (c2_amended_fallback_iff [⟨1, "sale", "", "u", "s", ""⟩] "" rfl).mpr
    ⟨⟨1, "sale", "", "u", "s", ""⟩, by simp, "sale", by decide, by decide⟩

/-- C8 counterexample: even with every fetch returning an empty list, the
model is still consulted, and a model response carrying a non-empty
`trendingTopics` array is emitted as-is, so `trendingTopics = []` is not
guaranteed by empty fetches alone. -/
theorem c8_counterexample :
    Trending.POST 0 (fun _ => none) true true (fun _ _ => [])
        "\x7b\"trendingTopics\":[1]\x7d"
        ⟨some (Trending.JsVal.num 3), some (Trending.JsVal.num 1),
          some (Trending.JsVal.num 10)⟩ =
      Trending.PostResponse.ok ⟨0, 0, [JsModel.JsonValue.num 1], [], []⟩ ∧
    [JsModel.JsonValue.num 1] ≠ ([] : List JsModel.JsonValue) := by
  refine ⟨by with_unfolding_all rfl, by simp⟩

/-- C8 (amended): with all fetches empty and any clamped request (the
spec's example `days = 3, pages = 1, pageSize = 10`), the orchestrator
returns — without throwing — a well-formed response with `totalFetched = 0`,
`articlesUsedForClustering = 0`, and, provided the model response does not
parse to a non-empty `trendingTopics` array (in particular for the empty
string or unparsable garbage), `trendingTopics = []`. -/
theorem c8_amended_empty_fetches (now : Int) (dateParse : String → Option Int)
    (modelText : String) (h : Trending.parseClusterJson modelText = []) :
    Trending.POST now dateParse true true (fun _ _ => []) modelText
        ⟨some (Trending.JsVal.num 3), some (Trending.JsVal.num 1),
          some (Trending.JsVal.num 10)⟩ =
      Trending.PostResponse.ok ⟨0, 0, [], [], []⟩ := by
  have hct : Trending.clusterTopics modelText [] = [] := by
    unfold Trending.clusterTopics
    rw [h]
    rfl
  have hpost : Trending.POST now dateParse true true (fun _ _ => []) modelText
      ⟨some (Trending.JsVal.num 3), some (Trending.JsVal.num 1),
        some (Trending.JsVal.num 10)⟩ =
      Trending.PostResponse.ok ⟨0, 0, Trending.clusterTopics modelText [], [], []⟩ := rfl
  rw [hpost, hct]

theorem c8_witness :
    Trending.POST 0 (fun _ => none) true true (fun _ _ => []) ""
        ⟨some (Trending.JsVal.num 3), some (Trending.JsVal.num 1),
          some (Trending.JsVal.num 10)⟩ =
      Trending.PostResponse.ok ⟨0, 0, [], [], []⟩ :=
  c8_amended_empty_fetches 0 (fun _ => none) "" rfl

namespace Trending

theorem reIndex_length (l : List Article) : (reIndex l).length = l.length := by
  unfold reIndex
  rw [List.length_map, List.enum_length]

theorem reIndex_index_bounds (l : List Article) (a : Article)
    (h : a ∈ reIndex l) : 1 ≤ a.index ∧ a.index ≤ l.length := by
  unfold reIndex at h
  obtain ⟨⟨i, b⟩, hmem, rfl⟩ := List.mem_map.mp h
  refine ⟨Nat.succ_le_succ (Nat.zero_le i), ?_⟩
  have hget := List.mk_mem_enum_iff_getElem?.mp hmem
  obtain ⟨hi, -⟩ := List.getElem?_eq_some.mp hget
  exact Nat.succ_le_of_lt hi

end Trending

/-- C1 counterexample: the response validator performs no range check on
parsed clusters — with one article (`N = 1`) and a model response whose only
cluster references article `999`, the topic is emitted with `999` still in
its `articles` list instead of the reference being dropped. -/
theorem c1_counterexample :
    Trending.clusterTopics "\x7b\"trendingTopics\":[\x7b\"articles\":[999]\x7d]\x7d"
        (Trending.reIndex [⟨0, "t", "", "u", "s", ""⟩]) =
      [JsModel.JsonValue.obj [("articles", JsModel.JsonValue.arr [JsModel.JsonValue.num 999])]] ∧
    Trending.topicArticleNums
        (JsModel.JsonValue.obj [("articles", JsModel.JsonValue.arr [JsModel.JsonValue.num 999])]) =
      [999] ∧
    ¬ ((999 : ℚ) ≤ ((Trending.reIndex [⟨0, "t", "", "u", "s", ""⟩]).length : ℚ)) := by
  refine ⟨by with_unfolding_all rfl, rfl, by decide⟩

/-- C1 (amended): the `[1, N]` bound holds for the topics the fallback
synthesizes (their `articles` entries are re-assigned indices of the
`1..N`-indexed cluster input), but parsed model topics are emitted without
any index validation (see the counterexample). -/
theorem c1_amended_fallback_in_range (l : List Trending.Article) (t : JsModel.JsonValue)
    (q : ℚ) (ht : t ∈ Trending.fallbackTopics (Trending.reIndex l))
    (hq : q ∈ Trending.topicArticleNums t) :
    1 ≤ q ∧ q ≤ ((Trending.reIndex l).length : ℚ) := by
  obtain ⟨e, he, rfl⟩ := List.mem_map.mp ht
  have h1 : Trending.topicArticleNums (Trending.fallbackTopic (Trending.reIndex l) e.1) =
      ((((Trending.reIndex l).filter (fun a =>
          JsModel.containsSub e.1.data (JsModel.jsLower a.title).data)).take 5).map
        (fun a => JsModel.JsonValue.num (a.index : ℚ))).filterMap
          (fun v => match v with | JsModel.JsonValue.num q2 => some q2 | _ => none) := rfl
  rw [h1] at hq
  obtain ⟨v, hv, hvq⟩ := List.mem_filterMap.mp hq
  obtain ⟨b, hb, rfl⟩ := List.mem_map.mp hv
  have hq2 : ((b.index : ℚ)) = q := by simpa using hvq
  have hbmem : b ∈ Trending.reIndex l :=
    List.mem_of_mem_filter (List.mem_of_mem_take hb)
  obtain ⟨hb1, hb2⟩ := Trending.reIndex_index_bounds l b hbmem
  subst hq2
  constructor
  · exact_mod_cast hb1
  · rw [Trending.reIndex_length]
    exact_mod_cast hb2

theorem c1_witness :
    1 ≤ ((1 : ℚ)) ∧
      ((1 : ℚ)) ≤ ((Trending.reIndex [⟨0, "sale", "", "u", "s", ""⟩]).length : ℚ) :=
  c1_amended_fallback_in_range [⟨0, "sale", "", "u", "s", ""⟩]
    (Trending.fallbackTopic (Trending.reIndex [⟨0, "sale", "", "u", "s", ""⟩]) "sale") 1
    (List.mem_singleton.mpr rfl) (List.mem_singleton.mpr rfl)

namespace Summarize

theorem card_insert_eq_card_erase_add_one {α : Type} [DecidableEq α] (s : Finset α) (x : α) :
    (insert x s).card = (s.erase x).card + 1 := by
  by_cases hx : x ∈ s
  · rw [Finset.card_insert_of_mem hx, Finset.card_erase_of_mem hx]
    exact (Nat.succ_pred_eq_of_pos (Finset.card_pos.mpr ⟨x, hx⟩)).symm
  · rw [Finset.card_insert_of_not_mem hx, Finset.erase_eq_of_not_mem hx]

theorem pickBySource_mem (k : Nat) (l : List Article) (srcs : List String) :
    ∀ a ∈ pickBySource k l srcs, a ∈ l := by
  induction l generalizing srcs with
  | nil => simp [pickBySource]
  | cons b rest ih =>
    intro a ha
    simp only [pickBySource] at ha
    split at ha
    · split at ha
      · simp at ha
      · exact List.mem_cons_of_mem b (ih srcs a ha)
    · split at ha
      · rw [List.mem_singleton] at ha
        subst ha
        exact List.mem_cons_self _ _
      · rcases List.mem_cons.mp ha with rfl | h
        · exact List.mem_cons_self _ _
        · exact List.mem_cons_of_mem b (ih _ a h)

theorem pickBySource_sources (k : Nat) (l : List Article) (srcs : List String) :
    ((pickBySource k l srcs).map (·.source)).Nodup ∧
      ∀ a ∈ pickBySource k l srcs, a.source ∉ srcs := by
  induction l generalizing srcs with
  | nil => simp [pickBySource]
  | cons b rest ih =>
    simp only [pickBySource]
    split
    · split
      · simp
      · exact ih srcs
    · next hnin =>
      split
      · refine ⟨by simp, ?_⟩
        intro a ha
        rw [List.mem_singleton] at ha
        subst ha
        exact hnin
      · obtain ⟨ihn, ihm⟩ := ih (b.source :: srcs)
        constructor
        · simp only [List.map_cons, List.nodup_cons]
          refine ⟨fun hmem => ?_, ihn⟩
          obtain ⟨c, hc, hcs⟩ := List.mem_map.mp hmem
          exact (ihm c hc) (by rw [hcs]; exact List.mem_cons_self _ _)
        · intro a ha
          rcases List.mem_cons.mp ha with rfl | h
          · exact hnin
          · exact fun hs => (ihm a h) (List.mem_cons_of_mem _ hs)

theorem pickBySource_length (k : Nat) (l : List Article) (srcs : List String)
    (hk : srcs.length < k) :
    (pickBySource k l srcs).length = min (k - srcs.length) (dNewSources l srcs) := by
  induction l generalizing srcs with
  | nil => simp [pickBySource, dNewSources]
  | cons b rest ih =>
    simp only [pickBySource]
    split
    · next hin =>
      rw [if_neg (Nat.not_le.mpr hk), ih srcs hk]
      have hd : dNewSources (b :: rest) srcs = dNewSources rest srcs := by
        unfold dNewSources
        simp only [List.map_cons, List.toFinset_cons]
        rw [Finset.insert_sdiff_of_mem _ (List.mem_toFinset.mpr hin)]
      rw [hd]
    · next hnin =>
      have hins : dNewSources (b :: rest) srcs =
          dNewSources rest (b.source :: srcs) + 1 := by
        unfold dNewSources
        simp only [List.map_cons, List.toFinset_cons]
        rw [Finset.insert_sdiff_of_not_mem _ (fun hc => hnin (List.mem_toFinset.mp hc)),
          Finset.sdiff_insert]
        exact card_insert_eq_card_erase_add_one _ _
      split
      · next hk2 =>
        have hkeq : k - srcs.length = 1 := by omega
        rw [hins, hkeq]
        have : 1 ≤ dNewSources rest (b.source :: srcs) + 1 := by omega
        simp [Nat.min_eq_left this]
      · next hk2 =>
        have hk3 : (b.source :: srcs).length < k := by
          simp only [List.length_cons]
          omega
        rw [List.length_cons, ih (b.source :: srcs) hk3, hins]
        simp only [List.length_cons]
        omega

end Summarize

namespace Summarize

theorem backfill_append (k : Nat) (l : List Article) (picked : List Article) :
    ∃ extra, backfill k l picked = picked ++ extra := by
  induction l generalizing picked with
  | nil => exact ⟨[], by simp [backfill]⟩
  | cons a rest ih =>
    simp only [backfill]
    split
    · exact ⟨[], by simp⟩
    · split
      · exact ih picked
      · obtain ⟨extra, hex⟩ := ih (picked ++ [a])
        exact ⟨a :: extra, by rw [hex]; simp⟩

theorem backfill_length (k : Nat) (l : List Article) (picked : List Article)
    (hl : l.Nodup) :
    (backfill k l picked).length =
      max picked.length
        (min k (picked.length + (l.filter (fun a => decide (a ∉ picked))).length)) := by
  induction l generalizing picked with
  | nil =>
    simp only [backfill, List.filter_nil, List.length_nil, Nat.add_zero]
    omega
  | cons a rest ih =>
    have hrest : rest.Nodup := (List.nodup_cons.mp hl).2
    have hanotin : a ∉ rest := (List.nodup_cons.mp hl).1
    simp only [backfill]
    split
    · next hk =>
      have hmin : min k (picked.length +
          (List.filter (fun x => decide (x ∉ picked)) (a :: rest)).length) ≤ picked.length :=
        le_trans (Nat.min_le_left _ _) hk
      omega
    · next hk =>
      split
      · next hmem =>
        rw [ih picked hrest]
        have hfil : List.filter (fun x => decide (x ∉ picked)) (a :: rest) =
            List.filter (fun x => decide (x ∉ picked)) rest := by
          rw [List.filter_cons_of_neg]
          simp [hmem]
        rw [hfil]
      · next hmem =>
        rw [ih (picked ++ [a]) hrest]
        have hlen : (picked ++ [a]).length = picked.length + 1 := by simp
        have hfil : (rest.filter (fun x => decide (x ∉ picked ++ [a]))).length =
            (rest.filter (fun x => decide (x ∉ picked))).length := by
          have hcong : List.filter (fun x => decide (x ∉ picked ++ [a])) rest =
              List.filter (fun x => decide (x ∉ picked)) rest := by
            apply List.filter_congr
            intro x hx
            have hxa : x ≠ a := fun h => hanotin (h ▸ hx)
            simp [List.mem_append, hxa]
          rw [hcong]
        have hfil2 : (List.filter (fun x => decide (x ∉ picked)) (a :: rest)).length =
            (rest.filter (fun x => decide (x ∉ picked))).length + 1 := by
          rw [List.filter_cons_of_pos (by simp [hmem])]
          simp
        rw [hlen, hfil, hfil2]
        omega

theorem backfill_mem (k : Nat) (l : List Article) (picked : List Article) :
    ∀ a ∈ backfill k l picked, a ∈ picked ∨ a ∈ l := by
  induction l generalizing picked with
  | nil =>
    intro a ha
    left
    simpa [backfill] using ha
  | cons b rest ih =>
    intro a ha
    simp only [backfill] at ha
    split at ha
    · left; exact ha
    · split at ha
      · rcases ih picked a ha with h | h
        · left; exact h
        · right; exact List.mem_cons_of_mem _ h
      · rcases ih (picked ++ [b]) a ha with h | h
        · rcases List.mem_append.mp h with h2 | h2
          · left; exact h2
          · rw [List.mem_singleton] at h2
            right
            subst h2
            exact List.mem_cons_self _ _
        · right; exact List.mem_cons_of_mem _ h

theorem backfill_nodup (k : Nat) (l : List Article) (picked : List Article)
    (h : picked.Nodup) : (backfill k l picked).Nodup := by
  induction l generalizing picked with
  | nil => simpa [backfill] using h
  | cons b rest ih =>
    simp only [backfill]
    split
    · exact h
    · split
      · exact ih picked h
      · next hmem =>
        refine ih (picked ++ [b]) ?_
        rw [List.nodup_append]
        exact ⟨h, List.nodup_singleton b, by rwa [List.disjoint_singleton]⟩

end Summarize

namespace Summarize

theorem nodup_subset_length_le {α : Type} [DecidableEq α] (l₁ l₂ : List α)
    (h1 : l₁.Nodup) (hsub : ∀ a ∈ l₁, a ∈ l₂) : l₁.length ≤ l₂.length :=
  (h1.subperm fun _ ha => hsub _ ha).length_le

theorem filter_mem_length (l : List Article) (picked : List Article) (hl : l.Nodup)
    (hp : picked.Nodup) (hsub : ∀ a ∈ picked, a ∈ l) :
    (l.filter (fun a => decide (a ∈ picked))).length = picked.length := by
  apply Nat.le_antisymm
  · exact nodup_subset_length_le _ _ (hl.filter _)
      (fun a ha => of_decide_eq_true (List.mem_filter.mp ha).2)
  · exact nodup_subset_length_le _ _ hp
      (fun a ha => List.mem_filter.mpr ⟨hsub a ha, decide_eq_true ha⟩)

theorem picked_filter_partition (l : List Article) (picked : List Article)
    (hl : l.Nodup) (hp : picked.Nodup) (hsub : ∀ a ∈ picked, a ∈ l) :
    picked.length + (l.filter (fun a => decide (a ∉ picked))).length = l.length := by
  have h1 := List.length_eq_length_filter_add (l := l) (fun a => decide (a ∈ picked))
  have h2 : List.filter (fun x => !decide (x ∈ picked)) l =
      List.filter (fun a => decide (a ∉ picked)) l := by
    apply List.filter_congr
    intro x _
    rw [decide_not]
  rw [h2] at h1
  have h3 := filter_mem_length l picked hl hp hsub
  omega

theorem srcCount_le_of_subset (l₁ l₂ : List Article) (h : ∀ a ∈ l₁, a ∈ l₂) :
    srcCount l₁ ≤ srcCount l₂ := by
  apply Finset.card_le_card
  intro s hs
  rw [List.mem_toFinset] at hs ⊢
  obtain ⟨a, ha, rfl⟩ := List.mem_map.mp hs
  exact List.mem_map_of_mem _ (h a ha)

theorem srcCount_eq_length_of_nodup (l : List Article)
    (h : (l.map (·.source)).Nodup) : srcCount l = l.length := by
  unfold srcCount
  rw [List.toFinset_card_of_nodup h, List.length_map]

theorem dNewSources_nil (l : List Article) : dNewSources l [] = srcCount l := by
  unfold dNewSources srcCount
  simp

end Summarize

/-- C4 counterexample: the diversity selector's backfill re-inserts skipped
articles after later source-distinct picks, so the output need not be an
order-preserving subsequence of the input.  With sources `s, s, t` and
`pageSize = 3` the output is `[a, c, b]`, not a sublist of `[a, b, c]`. -/
theorem c4_counterexample :
    ¬ (Summarize.selectDiverse 3
          [⟨"a", "", "", "s", ""⟩, ⟨"b", "", "", "s", ""⟩, ⟨"c", "", "", "t", ""⟩]).Sublist
        [⟨"a", "", "", "s", ""⟩, ⟨"b", "", "", "s", ""⟩, ⟨"c", "", "", "t", ""⟩] := by
  intro h
  exact absurd (h.eq_of_length (by decide)) (by decide)

/-- C4 (amended): for a deduplicated (duplicate-free) input, the diversity
selector outputs exactly `min(pageSize, input.length)` articles, each drawn
from the input without repetition, covering at least
`min(pageSize, distinctSourceCount)` distinct sources; the output is however
not in general an order-preserving subsequence (see the counterexample). -/
theorem c4_amended_diversity (k : Nat) (l : List Summarize.Article) (hl : l.Nodup) :
    (Summarize.selectDiverse k l).length = min k l.length ∧
    (∀ a ∈ Summarize.selectDiverse k l, a ∈ l) ∧
    (Summarize.selectDiverse k l).Nodup ∧
    min k (Summarize.srcCount l) ≤ Summarize.srcCount (Summarize.selectDiverse k l) := by
  have hunfold : Summarize.selectDiverse k l =
      (if (Summarize.pickBySource k l []).length < k
        then Summarize.backfill k l (Summarize.pickBySource k l [])
        else Summarize.pickBySource k l []).take k := rfl
  set p1 := Summarize.pickBySource k l [] with hp1
  have hmem1 : ∀ a ∈ p1, a ∈ l := Summarize.pickBySource_mem k l []
  obtain ⟨hsrcnd, -⟩ := Summarize.pickBySource_sources k l []
  have hnd1 : p1.Nodup := List.Nodup.of_map _ hsrcnd
  have hlep : p1.length ≤ l.length := Summarize.nodup_subset_length_le _ _ hnd1 hmem1
  by_cases hpk : p1.length < k
  · have hk0 : 0 < k := lt_of_le_of_lt (Nat.zero_le _) hpk
    have hp1len : p1.length = min k (Summarize.srcCount l) := by
      have hlen := Summarize.pickBySource_length k l [] (by simpa using hk0)
      rw [Summarize.dNewSources_nil] at hlen
      simpa using hlen
    obtain ⟨extra, hback⟩ := Summarize.backfill_append k l p1
    have hblen : (Summarize.backfill k l p1).length = max p1.length (min k l.length) := by
      rw [Summarize.backfill_length k l p1 hl,
        Summarize.picked_filter_partition l p1 hl hnd1 hmem1]
    have hresult : Summarize.selectDiverse k l = (Summarize.backfill k l p1).take k := by
      rw [hunfold, if_pos hpk]
    refine ⟨?_, ?_, ?_, ?_⟩
    · rw [hresult, List.length_take, hblen]
      omega
    · intro a ha
      rcases Summarize.backfill_mem k l p1 a (List.mem_of_mem_take (hresult ▸ ha)) with h | h
      · exact hmem1 a h
      · exact h
    · rw [hresult]
      exact List.Nodup.sublist (List.take_sublist _ _) (Summarize.backfill_nodup k l p1 hnd1)
    · have hres2 : Summarize.selectDiverse k l = p1 ++ extra.take (k - p1.length) := by
        rw [hresult, hback, List.take_append_eq_append_take,
          List.take_of_length_le (le_of_lt hpk)]
      have hsub : ∀ a ∈ p1, a ∈ Summarize.selectDiverse k l := by
        intro a ha
        rw [hres2]
        exact List.mem_append_left _ ha
      have h1 : Summarize.srcCount p1 ≤ Summarize.srcCount (Summarize.selectDiverse k l) :=
        Summarize.srcCount_le_of_subset _ _ hsub
      have h2 : Summarize.srcCount p1 = p1.length :=
        Summarize.srcCount_eq_length_of_nodup p1 hsrcnd
      omega
  · have hk2 : k ≤ p1.length := Nat.not_lt.mp hpk
    have hresult : Summarize.selectDiverse k l = p1.take k := by
      rw [hunfold, if_neg hpk]
    refine ⟨?_, ?_, ?_, ?_⟩
    · rw [hresult, List.length_take]
      omega
    · intro a ha
      exact hmem1 a (List.mem_of_mem_take (hresult ▸ ha))
    · rw [hresult]
      exact List.Nodup.sublist (List.take_sublist _ _) hnd1
    · have hnd2 : ((Summarize.selectDiverse k l).map (·.source)).Nodup := by
        rw [hresult, List.map_take]
        exact List.Nodup.sublist (List.take_sublist _ _) hsrcnd
      have h2 : Summarize.srcCount (Summarize.selectDiverse k l) =
          (Summarize.selectDiverse k l).length :=
        Summarize.srcCount_eq_length_of_nodup _ hnd2
      have h3 := Nat.min_le_left k (Summarize.srcCount l)
      rw [h2, hresult, List.length_take]
      omega

theorem c4_witness :
    (Summarize.selectDiverse 2
        [⟨"a", "", "", "s", ""⟩, ⟨"b", "", "", "s", ""⟩, ⟨"c", "", "", "t", ""⟩]).length =
      min 2 ([⟨"a", "", "", "s", ""⟩, ⟨"b", "", "", "s", ""⟩,
        ⟨"c", "", "", "t", ""⟩] : List Summarize.Article).length ∧
    min 2 (Summarize.srcCount [⟨"a", "", "", "s", ""⟩, ⟨"b", "", "", "s", ""⟩,
        ⟨"c", "", "", "t", ""⟩]) ≤
      Summarize.srcCount (Summarize.selectDiverse 2
        [⟨"a", "", "", "s", ""⟩, ⟨"b", "", "", "s", ""⟩, ⟨"c", "", "", "t", ""⟩]) := by
  have h := c4_amended_diversity 2
    [⟨"a", "", "", "s", ""⟩, ⟨"b", "", "", "s", ""⟩, ⟨"c", "", "", "t", ""⟩] (by decide)
  exact ⟨h.1, h.2.2.2⟩
